import Mathlib

/-!
Shallow embedding of the csvsorter package (src/__init__.py).

A CSV row is a list of string fields.  A file is the list of its parsed rows.
The functions below are direct translations of `parse_columns`, `csvsplit`,
`memorysort`, `mergesort` (with `heapq.merge`) and the orchestrating
`csvsort`, at the level of parsed rows; filenames in the temporary workspace
are modelled by the inductive `TmpFile`.
-/

abbrev Row := List String

/-- Python character comparison: by Unicode code point. -/
def chLt (a b : Char) : Bool := a.toNat < b.toNat

/-- Python string comparison (code-point lexicographic), on char lists. -/
def charsLt : List Char → List Char → Bool
  | [], [] => false
  | [], _ :: _ => true
  | _ :: _, [] => false
  | a :: as, b :: bs =>
    if chLt a b then true else if chLt b a then false else charsLt as bs

/-- Python `str < str`. -/
def pyStrLt (a b : String) : Bool := charsLt a.data b.data

/-- Python `list < list` on lists of strings: elementwise, first difference
decides, a strict prefix is smaller.  This is the comparison used both on the
key lists built by `memorysort` and on whole rows inside `heapq.merge`. -/
def pyListLt : List String → List String → Bool
  | [], [] => false
  | [], _ :: _ => true
  | _ :: _, [] => false
  | a :: as, b :: bs =>
    if pyStrLt a b then true else if pyStrLt b a then false else pyListLt as bs

/-- A column specifier as accepted by `csvsort`: an `int` index or a header
name (the `isinstance(column, int)` test in `parse_columns`). -/
inductive ColSpec where
  | idx (i : Int)
  | name (s : String)
deriving DecidableEq

/-- The `CsvSortError` messages raised by `parse_columns`, plus the unchecked
Python exceptions the module can raise (`next` on an empty reader,
`row[i]` / `sorted_filenames[0]` out of range). -/
inductive CsvErr where
  | outOfRange (i : Int)
  | notFound (s : String)
  | missingHeader (s : String)
  | stopIteration
  | indexError
deriving DecidableEq

/-- Python truthiness of the `header` variable: `None` and `[]` are falsy. -/
def headerTruthy : Option Row → Bool
  | none => false
  | some h => !h.isEmpty

/-- One iteration of the loop in `parse_columns` (src/__init__.py:60-72):
an `int` specifier is bounds-checked only when `header` is truthy; a name
specifier is looked up in a truthy header (`header.index`), and rejected
otherwise. -/
def processSpec (header : Option Row) : ColSpec → Except CsvErr ColSpec
  | .idx i =>
    if headerTruthy header ∧ ((header.getD []).length : Int) ≤ i then
      .error (.outOfRange i)
    else .ok (.idx i)
  | .name s =>
    if headerTruthy header then
      if s ∈ header.getD [] then .ok (.idx ((header.getD []).indexOf s))
      else .error (.notFound s)
    else .error (.missingHeader s)

/-- Left-to-right effectful map over `Except`, stopping at the first error;
the shape of every sequential loop in the module. -/
def exceptMapM (f : α → Except ε β) : List α → Except ε (List β)
  | [] => .ok []
  | x :: xs =>
    match f x with
    | .error e => .error e
    | .ok y =>
      match exceptMapM f xs with
      | .error e => .error e
      | .ok ys => .ok (y :: ys)

/-- `parse_columns(columns, header)` (src/__init__.py:57-73).  The result is
the final state of the `columns` list, which the function mutates in place
(`columns[i] = header.index(column)`) and returns. -/
def parse_columns (columns : List ColSpec) (header : Option Row) :
    Except CsvErr (List ColSpec) :=
  exceptMapM (processSpec header) columns

/-- Python `row[i]` on a list of fields, for `int` i: a negative index counts
from the end; out of range raises `IndexError`, modelled by `none`. -/
def pyGet (row : Row) (i : Int) : Option String :=
  let j : Int := if i < 0 then (row.length : Int) + i else i
  if 0 ≤ j ∧ j < (row.length : Int) then row[j.toNat]? else none

/-- The value a specifier selects from a row; a surviving name specifier
would raise (`row[str]` is a `TypeError`), which cannot happen after a
successful `parse_columns`. -/
def colValue (row : Row) : ColSpec → Option String
  | .idx i => pyGet row i
  | .name _ => none

/-- The sort key `[row[column] for column in columns]` of `memorysort`. -/
def keyOf (row : Row) : List ColSpec → Option (List String)
  | [] => some []
  | c :: cs =>
    match colValue row c with
    | none => none
    | some v =>
      match keyOf row cs with
      | none => none
      | some vs => some (v :: vs)

/-- Total version of the key, meaningful when `keyOf` succeeds. -/
def keyD (row : Row) (cols : List ColSpec) : List String := (keyOf row cols).getD []

/-- Strict comparison of two rows by their sort keys. -/
def rowKeyLt (cols : List ColSpec) (a b : Row) : Bool :=
  pyListLt (keyD a cols) (keyD b cols)

/-- Stable insertion: `x` goes after every earlier element strictly below it
and before the first element not below it (so before equals). -/
def sinsert (lt : Row → Row → Bool) (x : Row) : List Row → List Row
  | [] => [x]
  | y :: ys => if lt y x then y :: sinsert lt x ys else x :: y :: ys

/-- Stable ascending sort, the observable behaviour of Python's
`list.sort(key=...)` (which is stable by specification). -/
def stableSort (lt : Row → Row → Bool) : List Row → List Row
  | [] => []
  | x :: xs => sinsert lt x (stableSort lt xs)

/-- `memorysort(filename, columns)` (src/__init__.py:99-107) on the rows of
one chunk file: compute every key (raising `IndexError` on a missing field),
then sort stably by key. -/
def memorysort (cols : List ColSpec) (rows : List Row) : Except CsvErr (List Row) :=
  if rows.all (fun r => (keyOf r cols).isSome) then
    .ok (stableSort (rowKeyLt cols) rows)
  else .error .indexError

/-- The loop of `csvsplit` (src/__init__.py:85-95).  The state is the current
open chunk with its accumulated `current_size`, or `none` when `writer` is
`None`; a chunk is sealed once its size estimate exceeds the maximum. -/
def splitGo (maxB : Nat) (sz : Row → Nat) :
    List Row → Option (List Row × Nat) → List (List Row)
  | [], none => []
  | [], some (c, _) => [c]
  | r :: rs, st =>
    let c := match st with | none => [r] | some (c0, _) => c0 ++ [r]
    let s := match st with | none => sz r | some (_, s0) => s0 + sz r
    if maxB < s then c :: splitGo maxB sz rs none
    else splitGo maxB sz rs (some (c, s))

/-- `csvsplit(reader, max_size)` (src/__init__.py:76-96): partition the data
rows into chunk files.  `sz` models `sys.getsizeof(row)`; `max_size` is given
in megabytes and converted to bytes. -/
def csvsplit (rows : List Row) (maxSizeMB : Nat) (sz : Row → Nat) : List (List Row) :=
  splitGo (maxSizeMB * 1024 * 1024) sz rows none

/-- Pop the smallest current head among the streams, ties to the earliest
stream: exactly what `heapq.merge`'s heap of `(value, stream-order)` entries
does at each step.  Returns the popped row and the advanced streams. -/
def extractMin : List (List Row) → Option (Row × List (List Row))
  | [] => none
  | [] :: rest =>
    match extractMin rest with
    | none => none
    | some (r, rest') => some (r, [] :: rest')
  | (x :: xs) :: rest =>
    match extractMin rest with
    | none => some (x, xs :: rest)
    | some (r, rest') =>
      if pyListLt r x then some (r, (x :: xs) :: rest') else some (x, xs :: rest)

/-- Fuelled iteration of `extractMin`; fuel at least the total number of rows
makes it total. -/
def hmergeFuel : Nat → List (List Row) → List Row
  | 0, _ => []
  | fuel + 1, streams =>
    match extractMin streams with
    | none => []
    | some (r, rest) => r :: hmergeFuel fuel rest

/-- `heapq.merge(*rows)` as called at src/__init__.py:130: merge the streams
by repeatedly emitting the smallest current head, comparing WHOLE rows (no
key is passed; the `columns` argument of `yield_csv_rows` is unused). -/
def hmerge (streams : List (List Row)) : List Row :=
  hmergeFuel (streams.map List.length).sum streams

/-- The `while len(sorted_filenames) > 1` loop of `mergesort`
(src/__init__.py:122-134): take the first `nway` files, merge them into a new
file appended at the end of the list, and record the index `merge_n` of the
merge file created.  The fuel bounds the number of passes. -/
def mergeLoop (nway : Nat) : Nat → List (List Row) → Nat → List (List Row) × List Nat
  | 0, files, _ => (files, [])
  | fuel + 1, files, mergeN =>
    if files.length ≤ 1 then (files, [])
    else
      let merged := hmerge (files.take nway)
      let res := mergeLoop nway fuel (files.drop nway ++ [merged]) (mergeN + 1)
      (res.1, mergeN :: res.2)

/-- `mergesort(sorted_filenames, columns, nway=2)` (src/__init__.py:118-135)
on file contents: run the merge passes, then return `sorted_filenames[0]` —
an `IndexError` when the list is empty.  Also returns the indices of the
merge files it created in the workspace. -/
def mergesort (files : List (List Row)) (nway : Nat := 2) :
    Except CsvErr (List Row) × List Nat :=
  let res := mergeLoop nway files.length files 0
  (match res.1 with
   | [] => .error .indexError
   | f :: _ => .ok f, res.2)

/-- A file in the process-scoped workspace directory `.csvsorter.<pid>`:
`split<i>.csv` or `merge<n>.csv`. -/
inductive TmpFile where
  | split (i : Nat)
  | merge (n : Nat)
deriving DecidableEq

/-- `shutil.rmtree(tmp_dir, ignore_errors=True)` in the `finally` clause:
removes the workspace directory and hence every file in it. -/
def rmtree (_fs : List TmpFile) : List TmpFile := []

/-- Reading the input: with `has_header`, `header = next(reader)` raises
`StopIteration` on an empty file; otherwise the header is `None` and every
row is data. -/
def readHeader (fileRows : List Row) (hasHeader : Bool) :
    Except CsvErr (Option Row × List Row) :=
  if hasHeader then
    match fileRows with
    | [] => .error .stopIteration
    | h :: rest => .ok (some h, rest)
  else .ok (none, fileRows)

/-- The header lines csvsort writes to the output: `if header:` at
src/__init__.py:48 writes the header row only when it is truthy. -/
def headerLines (header : Option Row) : List Row :=
  match header with
  | some h => if h.isEmpty then [] else [h]
  | none => []

instance [DecidableEq ε] [DecidableEq α] : DecidableEq (Except ε α)
  | .ok a, .ok b =>
    if h : a = b then .isTrue (by rw [h])
    else .isFalse (by intro hh; cases hh; exact h rfl)
  | .ok _, .error _ => .isFalse (by intro h; cases h)
  | .error _, .ok _ => .isFalse (by intro h; cases h)
  | .error e, .error f =>
    if h : e = f then .isTrue (by rw [h])
    else .isFalse (by intro hh; cases hh; exact h rfl)

/-- Outcome of one `csvsort` run: the rows of the output file (or the raised
error), every workspace file ever created, and the workspace contents after
the `finally` clause. -/
structure RunResult where
  outcome : Except CsvErr (List Row)
  created : List TmpFile
  remaining : List TmpFile
deriving DecidableEq

/-- The `try` block of `csvsort` (src/__init__.py:28-52) on the parsed rows
of the input file: read the header, resolve the columns, split into chunks,
sort each chunk in memory, merge, and produce header plus merged rows.
Returns the outcome together with every workspace file created on the way. -/
def csvsortCore (fileRows : List Row) (columns : List ColSpec) (hasHeader : Bool)
    (maxSizeMB : Nat) (sz : Row → Nat) : Except CsvErr (List Row) × List TmpFile :=
  match readHeader fileRows hasHeader with
  | .error e => (.error e, [])
  | .ok (header, dataRows) =>
    match parse_columns columns header with
    | .error e => (.error e, [])
    | .ok cols =>
      let chunks := csvsplit dataRows maxSizeMB sz
      let splits := (List.range chunks.length).map TmpFile.split
      match exceptMapM (memorysort cols) chunks with
      | .error e => (.error e, splits)
      | .ok sortedChunks =>
        match mergesort sortedChunks with
        | (.error e, ns) => (.error e, splits ++ ns.map TmpFile.merge)
        | (.ok merged, ns) =>
          (.ok (headerLines header ++ merged), splits ++ ns.map TmpFile.merge)

/-- `csvsort(input, columns, ...)` (src/__init__.py:12-54): the `try` block
above wrapped in the `finally` clause, whose `rmtree` removes the workspace
on every exit path, successful or raising. -/
def csvsort (fileRows : List Row) (columns : List ColSpec) (hasHeader : Bool)
    (maxSizeMB : Nat) (sz : Row → Nat) : RunResult :=
  let core := csvsortCore fileRows columns hasHeader maxSizeMB sz
  ⟨core.1, core.2, rmtree core.2⟩

/-- The data rows of the input file (the header line excluded when present). -/
def modelDataRows (fileRows : List Row) (hasHeader : Bool) : List Row :=
  if hasHeader then fileRows.tail else fileRows

/-- The header row of the input file, when one is declared. -/
def modelHeader (fileRows : List Row) (hasHeader : Bool) : Option Row :=
  if hasHeader then fileRows.head? else none

/-- Spec-side single-specifier validation (§4.1 of the spec), with "a header
exists" read as "a non-empty header exists" — the reading forced by the
code's truthiness test. -/
def specErr (header : Option Row) : ColSpec → Option CsvErr
  | .idx i =>
    if headerTruthy header ∧ ((header.getD []).length : Int) ≤ i then
      some (.outOfRange i)
    else none
  | .name s =>
    if headerTruthy header then
      if s ∈ header.getD [] then none else some (.notFound s)
    else some (.missingHeader s)

/-- The first invalid specifier's error, if any. -/
def firstErr (cols : List ColSpec) (header : Option Row) : Option CsvErr :=
  cols.findSome? (specErr header)

/-- Spec-side resolution of one valid specifier: a numeric index unchanged, a
name replaced by its first position in the header. -/
def resolveSpec (header : Option Row) : ColSpec → ColSpec
  | .idx i => .idx i
  | .name s => .idx ((header.getD []).indexOf s)

/-! ## Permutation facts about the chunk sorter and the splitter -/

theorem sinsert_perm (lt : Row → Row → Bool) (x : Row) (l : List Row) :
    (sinsert lt x l).Perm (x :: l) := by
  induction l with
  | nil => exact List.Perm.refl _
  | cons y ys ih =>
    simp only [sinsert]
    split
    · exact (ih.cons y).trans (List.Perm.swap x y ys)
    · exact List.Perm.refl _

theorem stableSort_perm (lt : Row → Row → Bool) (l : List Row) :
    (stableSort lt l).Perm l := by
  induction l with
  | nil => exact List.Perm.refl _
  | cons x xs ih => exact (sinsert_perm lt x (stableSort lt xs)).trans (ih.cons x)

theorem memorysort_perm (cols : List ColSpec) (rows out : List Row)
    (h : memorysort cols rows = .ok out) : out.Perm rows := by
  unfold memorysort at h
  split at h
  · cases h; exact stableSort_perm _ _
  · cases h

theorem exceptMapM_memorysort_perm (cols : List ColSpec) :
    ∀ (chunks sorted : List (List Row)),
      exceptMapM (memorysort cols) chunks = .ok sorted →
      sorted.flatten.Perm chunks.flatten := by
  intro chunks
  induction chunks with
  | nil =>
    intro sorted h
    cases h
    exact List.Perm.refl _
  | cons c cs ih =>
    intro sorted h
    simp only [exceptMapM] at h
    cases hc : memorysort cols c with
    | error e => rw [hc] at h; cases h
    | ok y =>
      rw [hc] at h
      cases hcs : exceptMapM (memorysort cols) cs with
      | error e => rw [hcs] at h; cases h
      | ok ys =>
        rw [hcs] at h
        cases h
        simpa using (memorysort_perm cols c y hc).append (ih ys hcs)

theorem splitGo_flatten (maxB : Nat) (sz : Row → Nat) :
    ∀ (rows : List Row) (st : Option (List Row × Nat)),
      (splitGo maxB sz rows st).flatten
        = (match st with | none => [] | some (c, _) => c) ++ rows := by
  intro rows
  induction rows with
  | nil =>
    intro st
    match st with
    | none => simp [splitGo]
    | some (c, s) => simp [splitGo]
  | cons r rs ih =>
    intro st
    match st with
    | none =>
      simp only [splitGo]
      split
      · simp [ih none]
      · simp [ih (some ([r], sz r))]
    | some (c0, s0) =>
      simp only [splitGo]
      split
      · simp [ih none]
      · simp [ih (some (c0 ++ [r], s0 + sz r))]

theorem csvsplit_flatten (rows : List Row) (m : Nat) (sz : Row → Nat) :
    (csvsplit rows m sz).flatten = rows := by
  simpa using splitGo_flatten (m * 1024 * 1024) sz rows none

/-! ## Permutation facts about the k-way heap merge and the merge passes -/

theorem extractMin_none :
    ∀ streams : List (List Row), extractMin streams = none → streams.flatten = [] := by
  intro streams
  induction streams with
  | nil => intro _; rfl
  | cons s ss ih =>
    intro h
    cases s with
    | nil =>
      simp only [extractMin] at h
      cases he : extractMin ss with
      | none => simpa using ih he
      | some p =>
        rcases p with ⟨r', rest'⟩
        simp only [he] at h
        exact Option.noConfusion h
    | cons x xs =>
      simp only [extractMin] at h
      cases he : extractMin ss with
      | none =>
        simp only [he] at h
        exact Option.noConfusion h
      | some p =>
        rcases p with ⟨r', rest'⟩
        simp only [he] at h
        by_cases hc : pyListLt r' x = true
        · rw [if_pos hc] at h; exact Option.noConfusion h
        · rw [if_neg hc] at h; exact Option.noConfusion h

theorem extractMin_perm :
    ∀ (streams : List (List Row)) (r : Row) (rest : List (List Row)),
      extractMin streams = some (r, rest) →
      (r :: rest.flatten).Perm streams.flatten := by
  intro streams
  induction streams with
  | nil => intro r rest h; cases h
  | cons s ss ih =>
    intro r rest h
    cases s with
    | nil =>
      simp only [extractMin] at h
      cases he : extractMin ss with
      | none =>
        simp only [he] at h
        exact Option.noConfusion h
      | some p =>
        rcases p with ⟨r', rest'⟩
        simp only [he, Option.some.injEq, Prod.mk.injEq] at h
        obtain ⟨hr, hrest⟩ := h
        subst hr
        subst hrest
        simpa using ih r' rest' he
    | cons x xs =>
      simp only [extractMin] at h
      cases he : extractMin ss with
      | none =>
        simp only [he, Option.some.injEq, Prod.mk.injEq] at h
        obtain ⟨hr, hrest⟩ := h
        subst hr
        subst hrest
        exact List.Perm.refl _
      | some p =>
        rcases p with ⟨r', rest'⟩
        simp only [he] at h
        by_cases hc : pyListLt r' x = true
        · rw [if_pos hc] at h
          simp only [Option.some.injEq, Prod.mk.injEq] at h
          obtain ⟨hr, hrest⟩ := h
          subst hr
          subst hrest
          have hp := ih r' rest' he
          have h1 : (r' :: ((x :: xs) ++ rest'.flatten)).Perm
              ((x :: xs) ++ (r' :: rest'.flatten)) := List.perm_middle.symm
          have h2 : ((x :: xs) ++ (r' :: rest'.flatten)).Perm
              ((x :: xs) ++ ss.flatten) := hp.append_left (x :: xs)
          simpa using h1.trans h2
        · rw [if_neg hc] at h
          simp only [Option.some.injEq, Prod.mk.injEq] at h
          obtain ⟨hr, hrest⟩ := h
          subst hr
          subst hrest
          exact List.Perm.refl _

theorem hmergeFuel_perm :
    ∀ (fuel : Nat) (streams : List (List Row)),
      streams.flatten.length ≤ fuel →
      (hmergeFuel fuel streams).Perm streams.flatten := by
  intro fuel
  induction fuel with
  | zero =>
    intro streams h
    have : streams.flatten = [] := List.eq_nil_of_length_eq_zero (Nat.le_zero.mp h)
    simp [hmergeFuel, this]
  | succ n ih =>
    intro streams h
    simp only [hmergeFuel]
    cases he : extractMin streams with
    | none => rw [extractMin_none streams he]
    | some p =>
      rcases p with ⟨r, rest⟩
      have hp := extractMin_perm streams r rest he
      have hlen : rest.flatten.length + 1 = streams.flatten.length := by
        simpa using hp.length_eq
      exact ((ih rest (by omega)).cons r).trans hp

theorem hmerge_perm (streams : List (List Row)) : (hmerge streams).Perm streams.flatten := by
  apply hmergeFuel_perm
  rw [List.length_flatten]

theorem mergeLoop_perm (nway : Nat) :
    ∀ (fuel : Nat) (files : List (List Row)) (n : Nat),
      ((mergeLoop nway fuel files n).1.flatten).Perm files.flatten := by
  intro fuel
  induction fuel with
  | zero => intro files n; exact List.Perm.refl _
  | succ m ih =>
    intro files n
    simp only [mergeLoop]
    split
    · exact List.Perm.refl _
    · refine (ih (files.drop nway ++ [hmerge (files.take nway)]) (n + 1)).trans ?_
      have h2 : (files.drop nway ++ [hmerge (files.take nway)]).flatten
          = (files.drop nway).flatten ++ hmerge (files.take nway) := by simp
      rw [h2]
      have h3 : ((files.drop nway).flatten ++ hmerge (files.take nway)).Perm
          ((files.drop nway).flatten ++ (files.take nway).flatten) :=
        (hmerge_perm (files.take nway)).append_left _
      refine h3.trans ?_
      refine List.perm_append_comm.trans ?_
      rw [← List.flatten_append, List.take_append_drop]

theorem mergeLoop_length (nway : Nat) (hn : 2 ≤ nway) :
    ∀ (fuel : Nat) (files : List (List Row)) (n : Nat),
      files.length ≤ fuel + 1 → ((mergeLoop nway fuel files n).1).length ≤ 1 := by
  intro fuel
  induction fuel with
  | zero => intro files n h; simpa [mergeLoop] using h
  | succ m ih =>
    intro files n h
    simp only [mergeLoop]
    split
    · assumption
    · rename_i hlen
      apply ih
      simp only [List.length_append, List.length_drop, List.length_singleton]
      omega

theorem processSpec_eq (header : Option Row) (c : ColSpec) :
    processSpec header c
      = match specErr header c with
        | some e => .error e
        | none => .ok (resolveSpec header c) := by
  cases c with
  | idx i =>
    by_cases h : headerTruthy header = true ∧ ((header.getD []).length : Int) ≤ i
    · simp [processSpec, specErr, h]
    · simp [processSpec, specErr, h, resolveSpec]
  | name s =>
    by_cases ht : headerTruthy header = true
    · by_cases hm : s ∈ header.getD []
      · simp [processSpec, specErr, ht, hm, resolveSpec]
      · simp [processSpec, specErr, ht, hm]
    · simp [processSpec, specErr, ht]

theorem parse_columns_eq (header : Option Row) :
    ∀ cols : List ColSpec,
      parse_columns cols header
        = match firstErr cols header with
          | some e => .error e
          | none => .ok (cols.map (resolveSpec header)) := by
  intro cols
  induction cols with
  | nil => rfl
  | cons c cs ih =>
    simp only [parse_columns, exceptMapM]
    rw [processSpec_eq]
    cases hse : specErr header c with
    | some e => simp only [firstErr, List.findSome?_cons, hse]
    | none =>
      simp only [firstErr, List.findSome?_cons, hse]
      rw [show exceptMapM (processSpec header) cs = parse_columns cs header from rfl, ih]
      simp only [firstErr]
      cases hfs : List.findSome? (specErr header) cs <;> simp [hfs]

theorem readHeader_ok (fileRows : List Row) (hh : Bool) (header : Option Row)
    (dataRows : List Row) (h : readHeader fileRows hh = .ok (header, dataRows)) :
    header = modelHeader fileRows hh ∧ dataRows = modelDataRows fileRows hh := by
  cases hh with
  | false =>
    rw [show readHeader fileRows false = .ok (none, fileRows) from rfl] at h
    injection h with h
    injection h with h1 h2
    subst h1
    subst h2
    exact ⟨rfl, rfl⟩
  | true =>
    cases fileRows with
    | nil =>
      rw [show readHeader [] true = .error .stopIteration from rfl] at h
      exact Except.noConfusion h
    | cons hd tl =>
      rw [show readHeader (hd :: tl) true = .ok (some hd, tl) from rfl] at h
      injection h with h
      injection h with h1 h2
      subst h1
      subst h2
      exact ⟨rfl, rfl⟩

theorem mergesort_ok_perm (files : List (List Row)) (merged : List Row)
    (h : (mergesort files).1 = .ok merged) : merged.Perm files.flatten := by
  simp only [mergesort] at h
  cases hm : (mergeLoop 2 files.length files 0).1 with
  | nil => rw [hm] at h; cases h
  | cons f t =>
    rw [hm] at h
    cases h
    have hl := mergeLoop_length 2 (by omega) files.length files 0 (by omega)
    rw [hm] at hl
    have ht : t = [] := by
      cases t with
      | nil => rfl
      | cons a b => simp at hl
    subst ht
    have hp := mergeLoop_perm 2 files.length files 0
    rw [hm] at hp
    simpa using hp

/-- Structure of every successful run: the output is the header lines the code
writes followed by a body that is a permutation of the input's data rows. -/
theorem csvsort_ok_structure (fileRows : List Row) (cols : List ColSpec)
    (hh : Bool) (m : Nat) (sz : Row → Nat) (out : List Row)
    (h : (csvsort fileRows cols hh m sz).outcome = .ok out) :
    ∃ body, out = headerLines (modelHeader fileRows hh) ++ body ∧
      body.Perm (modelDataRows fileRows hh) := by
  have h' : (csvsortCore fileRows cols hh m sz).1 = .ok out := h
  unfold csvsortCore at h'
  cases hr : readHeader fileRows hh with
  | error e =>
    simp only [hr] at h'
    exact Except.noConfusion h'
  | ok p =>
    rcases p with ⟨header, dataRows⟩
    obtain ⟨hh1, hh2⟩ := readHeader_ok fileRows hh header dataRows hr
    subst hh1
    subst hh2
    simp only [hr] at h'
    cases hp : parse_columns cols (modelHeader fileRows hh) with
    | error e =>
      simp only [hp] at h'
      exact Except.noConfusion h'
    | ok cs =>
      simp only [hp] at h'
      cases hms : exceptMapM (memorysort cs) (csvsplit (modelDataRows fileRows hh) m sz) with
      | error e =>
        simp only [hms] at h'
        exact Except.noConfusion h'
      | ok sortedChunks =>
        simp only [hms] at h'
        cases hmg : mergesort sortedChunks with
        | mk fst ns =>
          cases fst with
          | error e =>
            simp only [hmg] at h'
            exact Except.noConfusion h'
          | ok merged =>
            simp only [hmg] at h'
            refine ⟨merged, ?_, ?_⟩
            · injection h' with h'
              exact h'.symm
            · have p1 := mergesort_ok_perm sortedChunks merged (by rw [hmg])
              have p2 := exceptMapM_memorysort_perm cs
                (csvsplit (modelDataRows fileRows hh) m sz) sortedChunks hms
              have p3 := csvsplit_flatten (modelDataRows fileRows hh) m sz
              have p4 : sortedChunks.flatten.Perm (modelDataRows fileRows hh) := p3 ▸ p2
              exact p1.trans p4

/-! ## Claims -/

/-- C1 (refuting evaluation): the merge step compares whole rows, not key
tuples — `heapq.merge` is called without a key and the `columns` argument of
`yield_csv_rows` is unused.  Sorting on column 1 with one-row chunks, the
sorted chunks `[["z","1"]]` and `[["a","2"]]` merge to
`[["a","2"], ["z","1"]]`: the adjacent output pair has strictly decreasing
key tuples (`["2"]` then `["1"]`), so the claimed key-order invariant fails
when the key columns are not a prefix of the row. -/
theorem csvsort_merge_key_order_violation :
    (csvsort [["z", "1"], ["a", "2"]] [.idx 1] false 0 (fun _ => 64)).outcome
      = .ok [["a", "2"], ["z", "1"]] ∧
    rowKeyLt [.idx 1] ["z", "1"] ["a", "2"] = true := by decide

/-- C2 (refuting evaluation): stability fails across chunks — the rows
`["a","2"]` and `["a","1"]` have equal keys on column 0 and land in separate
one-row chunks, but `heapq.merge` compares the whole rows and emits
`["a","1"]` first, reversing their input order. -/
theorem csvsort_stability_violation :
    (csvsort [["a", "2"], ["a", "1"]] [.idx 0] false 0 (fun _ => 64)).outcome
      = .ok [["a", "1"], ["a", "2"]] ∧
    keyD ["a", "2"] [.idx 0] = keyD ["a", "1"] [.idx 0] := by decide

/-- C3 (refuting evaluation): a header-only input yields zero chunks, and
`mergesort` applied to the empty file list evaluates `sorted_filenames[0]`
on an empty list, raising `IndexError` instead of returning an empty
result — so `csvsort` raises rather than writing the header-only output. -/
theorem csvsort_empty_input_raises :
    (csvsort [["h1", "h2"]] [.idx 0] true 100 (fun _ => 64)).outcome
      = .error .indexError ∧
    csvsplit [] 100 (fun _ => 64) = [] ∧
    (mergesort []).1 = .error .indexError := by decide

/-- C4: completeness — every successful run's output is the written header
lines followed by a body that is a permutation of the input's data rows: no
row is dropped, duplicated, or mutated by the split, the per-chunk sorts, or
the merge passes. -/
theorem csvsort_completeness (fileRows : List Row) (cols : List ColSpec)
    (hh : Bool) (m : Nat) (sz : Row → Nat) (out : List Row)
    (h : (csvsort fileRows cols hh m sz).outcome = .ok out) :
    ∃ body, out = headerLines (modelHeader fileRows hh) ++ body ∧
      body.Perm (modelDataRows fileRows hh) :=
  csvsort_ok_structure fileRows cols hh m sz out h

/-- Witness for C4 at a concrete run. -/
theorem csvsort_completeness_witness :
    ∃ body, [["a"], ["b"]] = headerLines (modelHeader [["b"], ["a"]] false) ++ body ∧
      body.Perm (modelDataRows [["b"], ["a"]] false) :=
  csvsort_completeness [["b"], ["a"]] [.idx 0] false 0 (fun _ => 64) [["a"], ["b"]]
    (by decide)

/-- C5 counterexample: with a header that parses to the empty row — a header
that exists — the numeric specifier 0 satisfies 0 ≥ header length, yet
`parse_columns` accepts it instead of failing with the out-of-range error,
because `if (header and ...)` treats the empty header as no header. -/
theorem parse_columns_truthiness_counterexample :
    (some ([] : Row)).isSome = true ∧
    ((([] : Row).length : Int) ≤ 0) ∧
    parse_columns [.idx 0] (some ([] : Row)) = .ok [.idx 0] := by decide

/-- C5 amended: with "a header exists" read as "a non-empty header exists"
(an empty header row behaves as no header), `parse_columns` fails with the
error of the first invalid specifier — out-of-range for a numeric specifier
at least the non-empty header's length, not-found for a name absent from the
non-empty header, missing-header for a name with no (or an empty) header —
and otherwise returns the resolved index list; `csvsort` propagates such a
failure having created no workspace file. -/
theorem parse_columns_amended_spec :
    (∀ (cols : List ColSpec) (header : Option Row),
      parse_columns cols header
        = match firstErr cols header with
          | some e => .error e
          | none => .ok (cols.map (resolveSpec header))) ∧
    (∀ (h : Row) (rest : List Row) (cols : List ColSpec) (m : Nat)
      (sz : Row → Nat) (e : CsvErr),
      parse_columns cols (some h) = .error e →
      csvsort (h :: rest) cols true m sz = ⟨.error e, [], []⟩) ∧
    (∀ (fileRows : List Row) (cols : List ColSpec) (m : Nat)
      (sz : Row → Nat) (e : CsvErr),
      parse_columns cols none = .error e →
      csvsort fileRows cols false m sz = ⟨.error e, [], []⟩) := by
  refine ⟨fun cols header => parse_columns_eq header cols, ?_, ?_⟩
  · intro h rest cols m sz e hpe
    have hc : csvsortCore (h :: rest) cols true m sz = (.error e, []) := by
      unfold csvsortCore
      simp only [show readHeader (h :: rest) true = Except.ok (some h, rest) from rfl, hpe]
    simp [csvsort, hc, rmtree]
  · intro fileRows cols m sz e hpe
    have hc : csvsortCore fileRows cols false m sz = (.error e, []) := by
      unfold csvsortCore
      simp only [show readHeader fileRows false = Except.ok (none, fileRows) from rfl, hpe]
    simp [csvsort, hc, rmtree]

/-- Witness for C5 amended: a missing name fails fast with no file created. -/
theorem parse_columns_amended_spec_witness :
    csvsort [["a"], ["x"]] [.name "zz"] true 0 (fun _ => 64)
      = ⟨.error (.notFound "zz"), [], []⟩ :=
  parse_columns_amended_spec.2.1 ["a"] [["x"]] [.name "zz"] 0 (fun _ => 64)
    (.notFound "zz") (by decide)

/-- C6 counterexample: when the header line parses to the empty row, the
`if header:` truthiness test drops it, so the output's first line is the
first data row, not the input's first line. -/
theorem csvsort_empty_header_dropped :
    (csvsort [[], ["a"]] [.idx 0] true 100 (fun _ => 64)).outcome = .ok [["a"]] ∧
    ([["a"]] : List Row).head? ≠ some ([] : Row) := by decide

/-- C6 amended: header preservation holds provided the header row is
non-empty — the first line of a successful output is the input's header
line, and the rest of the output is a permutation of the data rows alone, so
the header participates in no chunk or merge content. -/
theorem csvsort_header_preserved_amended (h : Row) (rest : List Row)
    (cols : List ColSpec) (m : Nat) (sz : Row → Nat) (out : List Row)
    (hne : h ≠ []) (hok : (csvsort (h :: rest) cols true m sz).outcome = .ok out) :
    out.head? = some h ∧ ∃ body, out = h :: body ∧ body.Perm rest := by
  obtain ⟨body, hout, hperm⟩ := csvsort_ok_structure (h :: rest) cols true m sz out hok
  have hml : modelHeader (h :: rest) true = some h := rfl
  have hdl : modelDataRows (h :: rest) true = rest := rfl
  rw [hml] at hout
  rw [hdl] at hperm
  have hl : headerLines (some h) = [h] := by
    cases h with
    | nil => exact absurd rfl hne
    | cons a as => rfl
  rw [hl] at hout
  subst hout
  exact ⟨rfl, body, rfl, hperm⟩

/-- Witness for C6 amended at a concrete run. -/
theorem csvsort_header_preserved_witness :
    ([["h"], ["a"], ["b"]] : List Row).head? = some ["h"] ∧
    ∃ body, ([["h"], ["a"], ["b"]] : List Row) = ["h"] :: body ∧
      body.Perm [["b"], ["a"]] :=
  csvsort_header_preserved_amended ["h"] [["b"], ["a"]] [.idx 0] 0 (fun _ => 64)
    [["h"], ["a"], ["b"]] (by decide) (by decide)

/-- C7 counterexample: `parse_columns` overwrites its argument list in place
(`columns[i] = header.index(column)`) and returns that same list: the list
it returns differs from the list that was passed in, so the caller's list is
modified and the function is not side-effect-free. -/
theorem parse_columns_mutates_argument :
    parse_columns [.name "b"] (some ["a", "b"]) = .ok [.idx 1] ∧
    ([ColSpec.idx 1] ≠ [ColSpec.name "b"]) := by decide

/-- C7 amended: `parse_columns` performs no I/O and reads but never writes
the header, yet it does mutate its argument list: on success the list it
returns (the caller's own list) has every name specifier overwritten with
the name's first position in the header, numeric specifiers left as they
are. -/
theorem parse_columns_resolution_amended (cols : List ColSpec)
    (header : Option Row) (res : List ColSpec)
    (h : parse_columns cols header = .ok res) :
    res = cols.map (resolveSpec header) := by
  rw [parse_columns_eq header] at h
  cases hf : firstErr cols header with
  | some e => rw [hf] at h; exact Except.noConfusion h
  | none =>
    rw [hf] at h
    injection h with h
    exact h.symm

/-- Witness for C7 amended at a concrete input. -/
theorem parse_columns_resolution_witness :
    ([ColSpec.idx 1] : List ColSpec)
      = [ColSpec.name "b"].map (resolveSpec (some ["a", "b"])) :=
  parse_columns_resolution_amended [.name "b"] (some ["a", "b"]) [.idx 1] (by decide)

/-- C8 (refuting evaluation): idempotence fails — the input
`[["b","x"], ["b","a"]]` is already sorted on column 0 (equal keys), yet
with one-row chunks the whole-row comparison inside `heapq.merge` emits
`["b","a"]` first, so re-sorting an already-sorted file changes its row
order. -/
theorem csvsort_idempotence_violation :
    rowKeyLt [.idx 0] ["b", "a"] ["b", "x"] = false ∧
    (csvsort [["b", "x"], ["b", "a"]] [.idx 0] false 0 (fun _ => 64)).outcome
      = .ok [["b", "a"], ["b", "x"]] ∧
    ([["b", "a"], ["b", "x"]] : List Row) ≠ [["b", "x"], ["b", "a"]] := by decide

/-- C9: workspace cleanup — on every exit path of `csvsort`, successful or
failing (header read, column resolution, chunk sort, or merge), the
`finally` clause's `rmtree` leaves nothing of the workspace behind. -/
theorem csvsort_workspace_cleanup (fileRows : List Row) (cols : List ColSpec)
    (hh : Bool) (m : Nat) (sz : Row → Nat) :
    (csvsort fileRows cols hh m sz).remaining = [] := rfl

/-- C10: a negative integer specifier passes validation — the bounds check
only rejects indices at least the header length — and `row[i]` with a
negative `i` selects the field at position `len(row) + i`, counted from the
end of the row. -/
theorem negative_column_passes_and_indexes_from_end :
    (∀ (header : Option Row) (i : Int), i < 0 →
      parse_columns [.idx i] header = .ok [.idx i]) ∧
    (∀ (row : Row) (i : Int), i < 0 → 0 ≤ (row.length : Int) + i →
      pyGet row i = row[((row.length : Int) + i).toNat]?) := by
  constructor
  · intro header i hi
    have hcond : ¬(headerTruthy header = true ∧ ((header.getD []).length : Int) ≤ i) := by
      rintro ⟨-, hle⟩
      omega
    simp [parse_columns, exceptMapM, processSpec, hcond]
  · intro row i hi hge
    have hcond : 0 ≤ (row.length : Int) + i ∧ (row.length : Int) + i < (row.length : Int) :=
      ⟨hge, by omega⟩
    simp [pyGet, hi, hcond]

/-- Witness for C10: specifier -1 is accepted and keys on the last field. -/
theorem negative_column_witness :
    parse_columns [.idx (-1)] (some ["a"]) = .ok [.idx (-1)] ∧
    pyGet ["x", "y"] (-1) = ["x", "y"][((((["x", "y"] : Row).length : Int) + (-1)).toNat)]? :=
  ⟨negative_column_passes_and_indexes_from_end.1 (some ["a"]) (-1) (by decide),
   negative_column_passes_and_indexes_from_end.2 ["x", "y"] (-1) (by decide) (by decide)⟩
